import Mathlib

/-!
Verification development for the SWEIS internal reference checker
(`sweis_ref_checker.py`).  The Python source is shallowly embedded:
strings are Lean `String`s manipulated through their underlying
`List Char`, regular expressions are hand-translated into executable
matchers with the same leftmost / greedy / non-overlapping semantics as
Python `re.finditer` and `re.search` restricted to the concrete patterns
of the source, and each Python function keeps its name.
-/

/-! ## Character classes and basic string helpers -/

/-- Whitespace characters, the model of Python `str.strip` whitespace and
of the regex class `\s` (the source only ever sees ASCII page text). -/
def wsChar (c : Char) : Bool :=
  c = ' ' || c = '\t' || c = '\n' || c = '\r' || c = '\x0b' || c = '\x0c'

/-- Decimal digits, the regex class `\d`. -/
def digitChar (c : Char) : Bool := '0' ≤ c && c ≤ '9'

/-- Upper-case ASCII letters, the regex class `[A-Z]` without IGNORECASE. -/
def upperChar (c : Char) : Bool := 'A' ≤ c && c ≤ 'Z'

/-- Any ASCII letter, the regex class `[A-Z]` under IGNORECASE. -/
def letterChar (c : Char) : Bool := upperChar c || ('a' ≤ c && c ≤ 'z')

/-- Word characters, the regex class `\w` (ASCII fragment). -/
def wordChar (c : Char) : Bool := letterChar c || digitChar c || c = '_'

/-- Characters of the regex class `[\d.]`. -/
def dotDigit (c : Char) : Bool := digitChar c || c = '.'

/-- Case-insensitive character comparison, the model of `re.IGNORECASE`. -/
def ciEq (a b : Char) : Bool := a.toLower == b.toLower

/-- Python `str.lstrip()` on the character list. -/
def lstripL (cs : List Char) : List Char := cs.dropWhile wsChar

/-- Python `str.strip()` on the character list. -/
def stripL (cs : List Char) : List Char :=
  ((lstripL cs).reverse.dropWhile wsChar).reverse

/-- Python `str.rstrip(".")` on the character list. -/
def rstripDots (cs : List Char) : List Char :=
  (cs.reverse.dropWhile (fun c => c = '.')).reverse

/-- Python `str.upper()` (ASCII fragment). -/
def pyUpper (s : String) : String := ⟨s.data.map Char.toUpper⟩

/-- Python `tid.startswith(p)`. -/
def pyStartswith (s p : String) : Bool := p.data.isPrefixOf s.data

/-- The substitution `re.sub(r"\s+", " ", s)`: every maximal whitespace run
collapses to a single space. -/
def collapseWS : List Char → List Char
  | [] => []
  | [c] => if wsChar c then [' '] else [c]
  | a :: b :: cs =>
    if wsChar a && wsChar b then collapseWS (b :: cs)
    else (if wsChar a then ' ' else a) :: collapseWS (b :: cs)

/-- The dash unification `s.replace("–", "-").replace("—", "-")`. -/
def dashMap (cs : List Char) : List Char :=
  cs.map (fun c => if c = '–' || c = '—' then '-' else c)

/-! ## Identifier normalization (`normalize_id`, `normalize_section_id`) -/

/-- Character-list body of `normalize_id`: strip, unify dashes, collapse
whitespace. -/
def normalizeIdL (raw : List Char) : List Char :=
  collapseWS (dashMap (stripL raw))

/-- Source `normalize_id`: normalize an identifier for matching — strip
whitespace, unify dashes, collapse inner whitespace runs. -/
def normalize_id (raw : String) : String := ⟨normalizeIdL raw.data⟩

/-- Source `normalize_section_id`: `normalize_id` followed by stripping
trailing dots. -/
def normalize_section_id (raw : String) : String :=
  ⟨rstripDots (normalize_id raw).data⟩

/-! ## Dot-separated identifier split and join (Python `split(".")`,
`".".join`) -/

/-- Python `s.split(".")` on a character list; on the empty list it yields
one empty piece, exactly as in Python. -/
def splitDots : List Char → List (List Char)
  | [] => [[]]
  | c :: cs =>
    if c = '.' then [] :: splitDots cs
    else
      match splitDots cs with
      | [] => [[c]]
      | p :: ps => (c :: p) :: ps

/-- Python `".".join(pieces)`. -/
def joinDots : List (List Char) → List Char
  | [] => []
  | [p] => p
  | p :: ps => p ++ '.' :: joinDots ps

/-- The strict ancestor prefixes of a section identifier, as built by the
loop in `find_orphans`: `parts = tid.split(".")`, and for each
`i in range(1, len(parts))` the parent `".".join(parts[:i])`. -/
def ancestorPrefixes (tid : String) : List String :=
  let parts := splitDots tid.data
  (List.range' 1 (parts.length - 1)).map (fun i => ⟨joinDots (parts.take i)⟩)

/-! ## Regex building blocks

Each compiled pattern of the source is hand-translated into a matcher
`List Char → Option (rest or lengths and captures)`.  The source patterns
are simple enough that Python's backtracking engine behaves
deterministically on them (every optional or greedy item is followed by a
syntactically disjoint continuation), so each matcher below is a direct
deterministic transcription of the pattern. -/

/-- Match a literal character sequence case-insensitively; returns the
remaining input on success. -/
def matchLitCI : List Char → List Char → Option (List Char)
  | [], s => some s
  | _ :: _, [] => none
  | l :: ls, c :: cs => if ciEq c l then matchLitCI ls cs else none

/-- Match a literal character sequence case-sensitively. -/
def matchLit : List Char → List Char → Option (List Char)
  | [], s => some s
  | _ :: _, [] => none
  | l :: ls, c :: cs => if c = l then matchLit ls cs else none

/-- Regex `\s+`: one or more whitespace characters, greedy. -/
def matchWS1 (s : List Char) : Option (List Char) :=
  let sp := List.span wsChar s
  if sp.1.isEmpty then none else some sp.2

/-- Regex `\s*`: any whitespace, greedy. -/
def matchWS0 (s : List Char) : List Char := (List.span wsChar s).2

/-- A sequence of case-insensitive literal words separated by `\s+`. -/
def matchWordsCI : List String → List Char → Option (List Char)
  | [], s => some s
  | [w], s => matchLitCI w.data s
  | w :: w2 :: ws, s =>
    match matchLitCI w.data s with
    | none => none
    | some r =>
      match matchWS1 r with
      | none => none
      | some r2 => matchWordsCI (w2 :: ws) r2

/-- Regex `\d+` (greedy): returns the digit run and the rest. -/
def matchDigits1 (s : List Char) : Option (List Char × List Char) :=
  let sp := List.span digitChar s
  if sp.1.isEmpty then none else some (sp.1, sp.2)

/-- Optional single character consumed case-insensitively when present
(the pattern `x?` in a context where the continuation cannot start with
`x`, which makes the greedy choice deterministic). -/
def skipOptCI (x : Char) (s : List Char) : List Char :=
  match s with
  | c :: cs => if ciEq c x then cs else s
  | [] => s

/-- Optional literal `\.?` in a context where the continuation cannot
start with a dot. -/
def skipOptDot (s : List Char) : List Char :=
  match s with
  | '.' :: cs => cs
  | _ => s

/-! ## Identifier-shaped capture groups -/

/-- The section identifier group `(S\.[\d.]+|[\d]+\.[\d.]+)`.  The flag
`ci` tells whether the surrounding pattern is compiled with IGNORECASE
(the reference patterns are, the target heading pattern is not).
Returns `(capture, rest)`. -/
def trySectionId (ci : Bool) (s : List Char) : Option (List Char × List Char) :=
  match s with
  | [] => none
  | c :: rest =>
    if (if ci then ciEq c 'S' else c = 'S') then
      match rest with
      | '.' :: rest2 =>
        let sp := List.span dotDigit rest2
        if sp.1.isEmpty then none else some (c :: '.' :: sp.1, sp.2)
      | _ => none
    else if digitChar c then
      let ds := List.span digitChar (c :: rest)
      match ds.2 with
      | '.' :: r2 =>
        let tl := List.span dotDigit r2
        if tl.1.isEmpty then none else some (ds.1 ++ '.' :: tl.1, tl.2)
      | _ => none
    else none

/-- The table/figure identifier group `([A-Z]?\.?[\d]+[\d.]*[-–]\d+)`
under IGNORECASE (so the letter class also accepts lower case).
Returns `(capture, rest)`. -/
def tryTFId (s : List Char) : Option (List Char × List Char) :=
  let pre1 : List Char × List Char :=
    match s with
    | c :: cs => if letterChar c then ([c], cs) else ([], s)
    | [] => ([], s)
  let pre2 : List Char × List Char :=
    match pre1.2 with
    | '.' :: cs => (pre1.1 ++ ['.'], cs)
    | _ => pre1
  match pre2.2 with
  | c :: _ =>
    if digitChar c then
      let run := List.span dotDigit pre2.2
      match run.2 with
      | d :: r2 =>
        if d = '-' || d = '–' then
          match matchDigits1 r2 with
          | some (ds, rest) => some (pre2.1 ++ run.1 ++ d :: ds, rest)
          | none => none
        else none
      | [] => none
    else none
  | [] => none

/-! ## The five primary reference patterns (`REF_PATTERNS`) -/

/-- Word-boundary test `\b` placed right after a word character: the next
character must not be a word character (or the input must end). -/
def atBoundary (s : List Char) : Bool :=
  match s with
  | [] => true
  | c :: _ => !wordChar c

/-- Pattern `Sections?\s+(S\.[\d.]+|[\d]+\.[\d.]+)`, IGNORECASE.
Returns `(match length, capture)` when matching at the head of `s`. -/
def trySectionRefAt (s : List Char) : Option (Nat × List Char) :=
  match matchLitCI "section".data s with
  | none => none
  | some r1 =>
    let r2 := skipOptCI 's' r1
    match matchWS1 r2 with
    | none => none
    | some r3 =>
      match trySectionId true r3 with
      | none => none
      | some (cap, rest) => some (s.length - rest.length, cap)

/-- Pattern `Chapters?\s+(\d+)`, IGNORECASE. -/
def tryChapterRefAt (s : List Char) : Option (Nat × List Char) :=
  match matchLitCI "chapter".data s with
  | none => none
  | some r1 =>
    let r2 := skipOptCI 's' r1
    match matchWS1 r2 with
    | none => none
    | some r3 =>
      match matchDigits1 r3 with
      | none => none
      | some (cap, rest) => some (s.length - rest.length, cap)

/-- Pattern `Tables?\s+([A-Z]?\.?[\d]+[\d.]*[-–]\d+)`, IGNORECASE. -/
def tryTableRefAt (s : List Char) : Option (Nat × List Char) :=
  match matchLitCI "table".data s with
  | none => none
  | some r1 =>
    let r2 := skipOptCI 's' r1
    match matchWS1 r2 with
    | none => none
    | some r3 =>
      match tryTFId r3 with
      | none => none
      | some (cap, rest) => some (s.length - rest.length, cap)

/-- Pattern `Figures?\s+([A-Z]?\.?[\d]+[\d.]*[-–]\d+)`, IGNORECASE. -/
def tryFigureRefAt (s : List Char) : Option (Nat × List Char) :=
  match matchLitCI "figure".data s with
  | none => none
  | some r1 =>
    let r2 := skipOptCI 's' r1
    match matchWS1 r2 with
    | none => none
    | some r3 =>
      match tryTFId r3 with
      | none => none
      | some (cap, rest) => some (s.length - rest.length, cap)

/-- The introducer `Appendi(?:x|ces)` under IGNORECASE: the alternative
`x` is tried first, `ces` otherwise (the two are disjoint). -/
def tryAppendiIntro (s : List Char) : Option (List Char) :=
  match matchLitCI "appendi".data s with
  | none => none
  | some r1 =>
    match r1 with
    | c :: cs => if ciEq c 'x' then some cs else matchLitCI "ces".data r1
    | [] => none

/-- Pattern `Appendi(?:x|ces)\s+([A-Z])\b`, IGNORECASE. -/
def tryAppendixRefAt (s : List Char) : Option (Nat × List Char) :=
  match tryAppendiIntro s with
  | none => none
  | some r2 =>
    match matchWS1 r2 with
    | none => none
    | some r3 =>
      match r3 with
      | c :: rest =>
        if letterChar c && atBoundary rest then
          some (s.length - rest.length, [c])
        else none
      | [] => none

/-! ## The four compound patterns -/

/-- Pattern `Tables?\s+(id)\s+and\s+(id)`, IGNORECASE; returns
`(match length, first capture, second capture)`. -/
def tryCompoundTableAt (s : List Char) : Option (Nat × List Char × List Char) :=
  match matchLitCI "table".data s with
  | none => none
  | some r1 =>
    match matchWS1 (skipOptCI 's' r1) with
    | none => none
    | some r2 =>
      match tryTFId r2 with
      | none => none
      | some (cap1, r3) =>
        match matchWS1 r3 with
        | none => none
        | some r4 =>
          match matchLitCI "and".data r4 with
          | none => none
          | some r5 =>
            match matchWS1 r5 with
            | none => none
            | some r6 =>
              match tryTFId r6 with
              | none => none
              | some (cap2, rest) => some (s.length - rest.length, cap1, cap2)

/-- Pattern `Figures?\s+(id)\s+and\s+(id)`, IGNORECASE. -/
def tryCompoundFigureAt (s : List Char) : Option (Nat × List Char × List Char) :=
  match matchLitCI "figure".data s with
  | none => none
  | some r1 =>
    match matchWS1 (skipOptCI 's' r1) with
    | none => none
    | some r2 =>
      match tryTFId r2 with
      | none => none
      | some (cap1, r3) =>
        match matchWS1 r3 with
        | none => none
        | some r4 =>
          match matchLitCI "and".data r4 with
          | none => none
          | some r5 =>
            match matchWS1 r5 with
            | none => none
            | some r6 =>
              match tryTFId r6 with
              | none => none
              | some (cap2, rest) => some (s.length - rest.length, cap1, cap2)

/-- Pattern `Sections?\s+(id)\s+and\s+(id)`, IGNORECASE. -/
def tryCompoundSectionAt (s : List Char) : Option (Nat × List Char × List Char) :=
  match matchLitCI "section".data s with
  | none => none
  | some r1 =>
    match matchWS1 (skipOptCI 's' r1) with
    | none => none
    | some r2 =>
      match trySectionId true r2 with
      | none => none
      | some (cap1, r3) =>
        match matchWS1 r3 with
        | none => none
        | some r4 =>
          match matchLitCI "and".data r4 with
          | none => none
          | some r5 =>
            match matchWS1 r5 with
            | none => none
            | some r6 =>
              match trySectionId true r6 with
              | none => none
              | some (cap2, rest) => some (s.length - rest.length, cap1, cap2)

/-- Pattern `Appendi(?:x|ces)\s+([A-Z])\s+and\s+([A-Z])\b`, IGNORECASE. -/
def tryCompoundAppendixAt (s : List Char) : Option (Nat × List Char × List Char) :=
  match tryAppendiIntro s with
  | none => none
  | some r1 =>
    match matchWS1 r1 with
    | none => none
    | some r2 =>
      match r2 with
      | c1 :: r3 =>
        if letterChar c1 then
          match matchWS1 r3 with
          | none => none
          | some r4 =>
            match matchLitCI "and".data r4 with
            | none => none
            | some r5 =>
              match matchWS1 r5 with
              | none => none
              | some r6 =>
                match r6 with
                | c2 :: rest =>
                  if letterChar c2 && atBoundary rest then
                    some (s.length - rest.length, [c1], [c2])
                  else none
                | [] => none
        else none
      | [] => none

/-! ## The `finditer` scanner

Python `re.finditer` yields the leftmost matches, non-overlapping:
scanning restarts at the end of each match.  None of the source patterns
can match the empty string, so every match advances the position.  The
scanner is written with explicit fuel (one unit per text position) so
that it is structurally recursive and kernel-reducible. -/

/-- One scanning pass: at each position try the matcher on the suffix;
on success record `(start, end, captures)` and continue at the match
end, otherwise advance one position. -/
def reFinditerAux (tryAt : List Char → Option (Nat × α)) (text : List Char) :
    Nat → Nat → List (Nat × Nat × α)
  | 0, _ => []
  | fuel + 1, pos =>
    if pos < text.length then
      match tryAt (text.drop pos) with
      | some (len, cap) =>
        (pos, pos + len, cap) :: reFinditerAux tryAt text fuel (pos + len)
      | none => reFinditerAux tryAt text fuel (pos + 1)
    else []

/-- All matches of a pattern over a text, Python `pattern.finditer(text)`. -/
def reFinditer (tryAt : List Char → Option (Nat × α)) (text : List Char) :
    List (Nat × Nat × α) :=
  reFinditerAux tryAt text (text.length + 1) 0

/-- Python `re.search` used as a boolean: does the pattern match at some
position of the text? -/
def searchRE (tryAt : List Char → Bool) : List Char → Bool
  | [] => tryAt []
  | c :: cs => tryAt (c :: cs) || searchRE tryAt cs

/-! ## Context patterns (`EXTERNAL_CONTEXT_RE`, `REGULATORY_RE` and the
inline patterns of `is_external_reference`) -/

/-- One alternative of `EXTERNAL_CONTEXT_RE` matching at the head of the
input (boolean: captures are not used). -/
def tryExternalCtxAt (s : List Char) : Bool :=
  (matchWordsCI ["2008", "LANL", "SWEIS"] s).isSome ||
  (matchWordsCI ["Final", "Site-Wide", "Environmental", "Impact",
                 "Statement", "for", "Continued"] s).isSome ||
  (matchWordsCI ["CT", "EIS"] s).isSome ||
  (matchWordsCI ["Conveyance", "and", "Transfer"] s).isSome ||
  (matchLitCI "DOE/EIS-0380".data s).isSome ||
  (matchLitCI "DOE/EIS-0293".data s).isSome ||
  (match matchLitCI "DOE/EA-".data s with
   | some r => (matchDigits1 r).isSome
   | none => false) ||
  (match matchLitCI "chromium".data s with
   | some r =>
     match matchWS1 r with
     | some r2 =>
       (match matchLitCI "interim".data r2 with
        | some r3 => some r3
        | none => matchLitCI "final".data r2).bind (fun r3 =>
          (matchWS1 r3).bind (fun r4 =>
            (matchLitCI "remedy".data r4).bind (fun r5 =>
              (matchWS1 r5).bind (fun r6 =>
                match matchLitCI "ea".data r6 with
                | some r7 => some r7
                | none => matchLitCI "environmental".data r6)))) |>.isSome
     | none => false
   | none => false) ||
  (matchWordsCI ["previous", "SWEIS"] s).isSome ||
  (matchWordsCI ["prior", "SWEIS"] s).isSome

/-- One alternative of `REGULATORY_RE` matching at the head of the input:
`\d+\s+CFR`, `\d+\s+U\.S\.C\.`, `\d+\s+FR\s+\d+`, `Executive\s+Order`
or `DOE\s+Order`, IGNORECASE. -/
def tryRegulatoryAt (s : List Char) : Bool :=
  (match matchDigits1 s with
   | some (_, r) =>
     match matchWS1 r with
     | some r2 =>
       (matchLitCI "cfr".data r2).isSome ||
       (matchLitCI "u.s.c.".data r2).isSome ||
       (match matchLitCI "fr".data r2 with
        | some r3 =>
          match matchWS1 r3 with
          | some r4 => (matchDigits1 r4).isSome
          | none => false
        | none => false)
     | none => false
   | none => false) ||
  (matchWordsCI ["Executive", "Order"] s).isSome ||
  (matchWordsCI ["DOE", "Order"] s).isSome

/-- Inline pattern `of\s+the\s+(?:Final|2008|previous)`, IGNORECASE. -/
def tryOfTheAt (s : List Char) : Bool :=
  match matchWordsCI ["of", "the"] s with
  | none => false
  | some r =>
    match matchWS1 r with
    | none => false
    | some r2 =>
      (matchLitCI "final".data r2).isSome ||
      (matchLitCI "2008".data r2).isSome ||
      (matchLitCI "previous".data r2).isSome

/-- Inline pattern `Source:\s*\w+\s*\(\d{4}`, IGNORECASE. -/
def trySourceShortAt (s : List Char) : Bool :=
  match matchLitCI "source:".data s with
  | none => false
  | some r1 =>
    let r2 := matchWS0 r1
    let sp := List.span wordChar r2
    if sp.1.isEmpty then false
    else
      match matchWS0 sp.2 with
      | '(' :: r3 => (r3.take 4).all digitChar && decide (4 ≤ r3.length)
      | _ => false

/-- Inline pattern `Source:\s*\w+\s*\(\d{4}\w?\)`, IGNORECASE. -/
def trySourceWideAt (s : List Char) : Bool :=
  match matchLitCI "source:".data s with
  | none => false
  | some r1 =>
    let r2 := matchWS0 r1
    let sp := List.span wordChar r2
    if sp.1.isEmpty then false
    else
      match matchWS0 sp.2 with
      | '(' :: r3 =>
        (r3.take 4).all digitChar && decide (4 ≤ r3.length) &&
        (match r3.drop 4 with
         | ')' :: _ => true
         | c :: ')' :: _ => wordChar c
         | _ => false)
      | _ => false

/-- The skeleton `U\.?S\.?C\.?` under IGNORECASE (the trailing optional
dot cannot affect a boolean search). -/
def tryUSCAt (s : List Char) : Bool :=
  match s with
  | c0 :: r0 =>
    ciEq c0 'u' &&
    (match skipOptDot r0 with
     | c1 :: r1 =>
       ciEq c1 's' &&
       (match skipOptDot r1 with
        | c2 :: _ => ciEq c2 'c'
        | [] => false)
     | [] => false)
  | [] => false

/-- Inline pattern
`(?:Code\s+of\s+Ordinance|U\.?S\.?C\.?|United\s+States\s+Code)`,
IGNORECASE. -/
def tryLegalCodeAt (s : List Char) : Bool :=
  (matchWordsCI ["Code", "of", "Ordinance"] s).isSome ||
  tryUSCAt s ||
  (matchWordsCI ["United", "States", "Code"] s).isSome

/-! ## Data model -/

/-- An internal reference found in the document text (source dataclass
`Reference`). -/
structure Reference where
  ref_type : String
  ref_id : String
  raw_text : String
  volume : String
  page : Nat
  context : String := ""
deriving DecidableEq, Repr

/-- A reference target (heading, label, caption) found in the document
(source dataclass `Target`). -/
structure Target where
  target_type : String
  target_id : String
  raw_text : String
  volume : String
  page : Nat
deriving DecidableEq, Repr

/-! ## Context classification -/

/-- Source `get_context`: a snippet of surrounding text (window 150) with
newlines flattened, stripped, and ellipses added on clipped sides. -/
def get_context (text : List Char) (mstart mend : Nat) : String :=
  let window := 150
  let s := mstart - window
  let e := min text.length (mend + window)
  let snippet := stripL (((text.take e).drop s).map
    (fun c => if c = '\n' then ' ' else c))
  let snippet := if 0 < s then "...".data ++ snippet else snippet
  let snippet := if e < text.length then snippet ++ "...".data else snippet
  ⟨snippet⟩

/-- Source `is_external_reference`: check whether the surrounding context
indicates an external document reference.  Windows and patterns follow
the source line by line. -/
def is_external_reference (text : List Char) (mstart mend : Nat) : Bool :=
  let context := (text.take (min text.length (mend + 200))).drop (mstart - 200)
  let after := (text.take (min text.length (mend + 80))).drop mend
  let before := (text.take mstart).drop (mstart - 80)
  let before_wide := (text.take mstart).drop (mstart - 150)
  searchRE tryExternalCtxAt context ||
  searchRE tryOfTheAt after ||
  searchRE trySourceShortAt before ||
  searchRE trySourceWideAt before_wide ||
  searchRE tryLegalCodeAt before_wide

/-- Source `is_regulatory_context`: is the match part of a regulatory
citation (window 100 on both sides)? -/
def is_regulatory_context (text : List Char) (mstart mend : Nat) : Bool :=
  let context := (text.take (min text.length (mend + 100))).drop (mstart - 100)
  searchRE tryRegulatoryAt context

/-! ## Reference extraction (`extract_references`) -/

/-- The source list `REF_PATTERNS`: per kind, the primary reference
pattern (the capture-group index of the source is folded into each
matcher, which returns the group directly). -/
def REF_PATTERNS : List (String × (List Char → Option (Nat × List Char))) :=
  [("section", trySectionRefAt),
   ("chapter", tryChapterRefAt),
   ("table", tryTableRefAt),
   ("figure", tryFigureRefAt),
   ("appendix", tryAppendixRefAt)]

/-- Normalization dispatch of the primary loop: sections and chapters use
`normalize_section_id`, everything else `normalize_id`. -/
def normalizeFor (ref_type : String) (raw : String) : String :=
  if ref_type == "section" || ref_type == "chapter" then
    normalize_section_id raw
  else normalize_id raw

/-- The matched raw text `m.group(0)` recovered from the match span. -/
def rawOf (text : List Char) (mstart mend : Nat) : String :=
  ⟨(text.drop mstart).take (mend - mstart)⟩

/-- Primary-pattern references of one page: every `finditer` match that
is neither in a regulatory context nor in an external context becomes a
`Reference`, in pattern order then in scan order. -/
def primaryRefsOfPage (text : List Char) (volume : String) (page_num : Nat) :
    List Reference :=
  REF_PATTERNS.flatMap (fun pat =>
    (reFinditer pat.2 text).filterMap (fun m =>
      if is_regulatory_context text m.1 m.2.1 then none
      else if is_external_reference text m.1 m.2.1 then none
      else some
        { ref_type := pat.1
          ref_id := normalizeFor pat.1 ⟨m.2.2⟩
          raw_text := rawOf text m.1 m.2.1
          volume := volume
          page := page_num
          context := get_context text m.1 m.2.1 }))

/-- Second references from one compound pattern on one page: guarded by
`is_external_reference` only, normalizing the second capture group. -/
def compoundRefsOfPage (tryAt : List Char → Option (Nat × List Char × List Char))
    (ref_type : String) (norm : String → String)
    (text : List Char) (volume : String) (page_num : Nat) : List Reference :=
  (reFinditer tryAt text).filterMap (fun m =>
    if is_external_reference text m.1 m.2.1 then none
    else some
      { ref_type := ref_type
        ref_id := norm ⟨m.2.2.2⟩
        raw_text := rawOf text m.1 m.2.1
        volume := volume
        page := page_num
        context := get_context text m.1 m.2.1 })

/-- Source `extract_references`: all internal references of the given
pages, primary patterns first, then the four compound patterns in source
order (table, figure, section, appendix). -/
def extract_references (pages : List (Nat × String)) (volume : String) :
    List Reference :=
  pages.flatMap (fun pg =>
    let page_num := pg.1
    let text := pg.2.data
    primaryRefsOfPage text volume page_num ++
    compoundRefsOfPage tryCompoundTableAt "table" normalize_id
      text volume page_num ++
    compoundRefsOfPage tryCompoundFigureAt "figure" normalize_id
      text volume page_num ++
    compoundRefsOfPage tryCompoundSectionAt "section" normalize_section_id
      text volume page_num ++
    compoundRefsOfPage tryCompoundAppendixAt "appendix"
      (fun g => pyUpper (normalize_id g)) text volume page_num)

/-! ## Target extraction (`extract_targets`)

The heading patterns are MULTILINE and anchored with `^[ \t]*`; the
scanner below tries a pattern only at line starts (position 0 or right
after a newline), which is exactly where `^` can match. -/

/-- Leading `[ \t]*` of the anchored heading patterns. -/
def skipIndent (s : List Char) : List Char :=
  (List.span (fun c => c = ' ' || c = '\t') s).2

/-- Pattern body of `SECTION_HEADING_RE`:
`(S\.[\d.]+|[\d]+\.[\d.]+)\s+[A-Z]` (case-sensitive). -/
def trySectionHeadingAt (s : List Char) : Option (Nat × List Char) :=
  let r0 := skipIndent s
  match trySectionId false r0 with
  | none => none
  | some (cap, r1) =>
    match matchWS1 r1 with
    | none => none
    | some r2 =>
      match r2 with
      | c :: rest => if upperChar c then some (s.length - rest.length, cap) else none
      | [] => none

/-- Pattern body of `CHAPTER_HEADING_RE`: `(?:CHAPTER|Chapter)\s+(\d+)`
(case-sensitive alternation). -/
def tryChapterHeadingAt (s : List Char) : Option (Nat × List Char) :=
  let r0 := skipIndent s
  let intro :=
    match matchLit "CHAPTER".data r0 with
    | some r => some r
    | none => matchLit "Chapter".data r0
  match intro with
  | none => none
  | some r1 =>
    match matchWS1 r1 with
    | none => none
    | some r2 =>
      match matchDigits1 r2 with
      | none => none
      | some (cap, rest) => some (s.length - rest.length, cap)

/-- Pattern body of `TABLE_LABEL_RE`: `Table\s+(id)` (IGNORECASE). -/
def tryTableLabelAt (s : List Char) : Option (Nat × List Char) :=
  let r0 := skipIndent s
  match matchLitCI "table".data r0 with
  | none => none
  | some r1 =>
    match matchWS1 r1 with
    | none => none
    | some r2 =>
      match tryTFId r2 with
      | none => none
      | some (cap, rest) => some (s.length - rest.length, cap)

/-- Pattern body of `FIGURE_LABEL_RE`: `Figure\s+(id)` (IGNORECASE). -/
def tryFigureLabelAt (s : List Char) : Option (Nat × List Char) :=
  let r0 := skipIndent s
  match matchLitCI "figure".data r0 with
  | none => none
  | some r1 =>
    match matchWS1 r1 with
    | none => none
    | some r2 =>
      match tryTFId r2 with
      | none => none
      | some (cap, rest) => some (s.length - rest.length, cap)

/-- Pattern body of `APPENDIX_HEADER_RE`:
`(?:APPENDIX|Appendix)\s+([A-Z])\b` (case-sensitive). -/
def tryAppendixHeaderAt (s : List Char) : Option (Nat × List Char) :=
  let r0 := skipIndent s
  let intro :=
    match matchLit "APPENDIX".data r0 with
    | some r => some r
    | none => matchLit "Appendix".data r0
  match intro with
  | none => none
  | some r1 =>
    match matchWS1 r1 with
    | none => none
    | some r2 =>
      match r2 with
      | c :: rest =>
        if upperChar c && atBoundary rest then
          some (s.length - rest.length, [c])
        else none
      | [] => none

/-- Multiline scanner: like `reFinditerAux` but a match may only start at
a line start (`^` of a MULTILINE pattern). -/
def reFinditerMLAux (tryAt : List Char → Option (Nat × α)) (text : List Char) :
    Nat → Nat → List (Nat × Nat × α)
  | 0, _ => []
  | fuel + 1, pos =>
    if pos < text.length then
      if pos = 0 || text[pos - 1]? = some '\n' then
        match tryAt (text.drop pos) with
        | some (len, cap) =>
          (pos, pos + len, cap) :: reFinditerMLAux tryAt text fuel (pos + len)
        | none => reFinditerMLAux tryAt text fuel (pos + 1)
      else reFinditerMLAux tryAt text fuel (pos + 1)
    else []

/-- All matches of a `^`-anchored MULTILINE pattern over a text. -/
def reFinditerML (tryAt : List Char → Option (Nat × α)) (text : List Char) :
    List (Nat × Nat × α) :=
  reFinditerMLAux tryAt text (text.length + 1) 0

/-- The target raw text
`text[m.start():min(m.end()+extra, len(text))].split("\n")[0].strip()`. -/
def targetRawText (text : List Char) (mstart mend extra : Nat) : String :=
  ⟨stripL (((text.take (min (mend + extra) text.length)).drop mstart).takeWhile
    (fun c => !(c == '\n')))⟩

/-- Source `extract_targets`: all targets (headings, labels) of the given
pages, in source order (sections, chapters, tables, figures,
appendices per page). -/
def extract_targets (pages : List (Nat × String)) (volume : String) :
    List Target :=
  pages.flatMap (fun pg =>
    let page_num := pg.1
    let text := pg.2.data
    ((reFinditerML trySectionHeadingAt text).map (fun m =>
      { target_type := "section"
        target_id := normalize_section_id ⟨m.2.2⟩
        raw_text := targetRawText text m.1 m.2.1 80
        volume := volume
        page := page_num : Target })) ++
    ((reFinditerML tryChapterHeadingAt text).map (fun m =>
      { target_type := "chapter"
        target_id := ⟨stripL m.2.2⟩
        raw_text := targetRawText text m.1 m.2.1 60
        volume := volume
        page := page_num : Target })) ++
    ((reFinditerML tryTableLabelAt text).map (fun m =>
      { target_type := "table"
        target_id := normalize_id ⟨m.2.2⟩
        raw_text := targetRawText text m.1 m.2.1 80
        volume := volume
        page := page_num : Target })) ++
    ((reFinditerML tryFigureLabelAt text).map (fun m =>
      { target_type := "figure"
        target_id := normalize_id ⟨m.2.2⟩
        raw_text := targetRawText text m.1 m.2.1 80
        volume := volume
        page := page_num : Target })) ++
    ((reFinditerML tryAppendixHeaderAt text).map (fun m =>
      { target_type := "appendix"
        target_id := pyUpper ⟨m.2.2⟩
        raw_text := targetRawText text m.1 m.2.1 60
        volume := volume
        page := page_num : Target })))

/-! ## Cross-reference matching (`find_orphans`) -/

/-- The dictionary key `f"{r.ref_type}:{r.ref_id}"`. -/
def refKey (r : Reference) : String := r.ref_type ++ ":" ++ r.ref_id

/-- Python `key.split(":", 1)`: split at the first colon. -/
def splitFirstColon : List Char → List Char × List Char
  | [] => ([], [])
  | c :: cs =>
    if c = ':' then ([], cs)
    else
      let p := splitFirstColon cs
      (c :: p.1, p.2)

/-- The pair `(ref_type, ref_id)` recovered from a dictionary key. -/
def splitKeyColon (k : String) : String × String :=
  let p := splitFirstColon k.data
  (⟨p.1⟩, ⟨p.2⟩)

/-- The per-kind set of known target identifiers built by `find_orphans`,
including, for kind `section`, every strict ancestor prefix of every
section target identifier.  (Python stores a `set`; a list models it
since only membership and existential scans are performed on it.) -/
def knownTargetIds (targets : List Target) (rt : String) : List String :=
  ((targets.filter (fun t => t.target_type == rt)).map (fun t => t.target_id)) ++
  (if rt == "section" then
    (targets.filter (fun t => t.target_type == "section")).flatMap
      (fun t => ancestorPrefixes t.target_id)
  else [])

/-- The section fallback scan of `find_orphans`: some known identifier
starts with `ref_id + "."` or equals `ref_id`. -/
def sectionPrefixScan (known : List String) (rid : String) : Bool :=
  known.any (fun tid => pyStartswith tid (rid ++ ".") || tid == rid)

/-- The verdict of one dictionary key: literal membership, then for
sections the prefix scan. -/
def keyIsMatched (targets : List Target) (k : String) : Bool :=
  let p := splitKeyColon k
  let known := knownTargetIds targets p.1
  known.contains p.2 || (p.1 == "section" && sectionPrefixScan known p.2)

/-- The insertion-ordered key list of the grouping dictionary
`seen_refs` (Python dicts preserve first-insertion order). -/
def seenKeys (refs : List Reference) : List String :=
  refs.foldl (fun ks r => if refKey r ∈ ks then ks else ks ++ [refKey r]) []

/-- Source `find_orphans`: group references by `(type, id)` key, judge
each group against the known-target sets (with ancestor closure and
prefix scan for sections), and return `(matched, orphaned)`. -/
def find_orphans (refs : List Reference) (targets : List Target) :
    List Reference × List Reference :=
  let keys := seenKeys refs
  ((keys.filter (fun k => keyIsMatched targets k)).flatMap
      (fun k => refs.filter (fun r => refKey r == k)),
   (keys.filter (fun k => !keyIsMatched targets k)).flatMap
      (fun k => refs.filter (fun r => refKey r == k)))

/-! ## The closure-free variant of `find_orphans`

Modelled for the refinement claim only: identical to `find_orphans`
except that the loop adding ancestor prefixes of section target
identifiers to the known-target set is removed. -/

/-- Known target identifiers without the ancestor-prefix closure loop. -/
def knownTargetIdsNC (targets : List Target) (rt : String) : List String :=
  (targets.filter (fun t => t.target_type == rt)).map (fun t => t.target_id)

/-- Key verdict computed against the closure-free known set. -/
def keyIsMatchedNC (targets : List Target) (k : String) : Bool :=
  let p := splitKeyColon k
  let known := knownTargetIdsNC targets p.1
  known.contains p.2 || (p.1 == "section" && sectionPrefixScan known p.2)

/-- The variant of `find_orphans` with the ancestor-prefix loop removed. -/
def find_orphans_noclosure (refs : List Reference) (targets : List Target) :
    List Reference × List Reference :=
  let keys := seenKeys refs
  ((keys.filter (fun k => keyIsMatchedNC targets k)).flatMap
      (fun k => refs.filter (fun r => refKey r == k)),
   (keys.filter (fun k => !keyIsMatchedNC targets k)).flatMap
      (fun k => refs.filter (fun r => refKey r == k)))

/-! ## Claim theorems -/

/-- Projection of a reference to its logical identity `(kind, identifier)`. -/
def refKindId (r : Reference) : String × String := (r.ref_type, r.ref_id)

/-- C9: a volume with an empty page list yields no references and no
targets, and matching empty pools yields two empty lists; all three
functions are total, so no error condition exists. -/
theorem empty_input_supported :
    extract_references [] "vol1.pdf" = [] ∧
    extract_targets [] "vol1.pdf" = [] ∧
    find_orphans [] [] = ([], []) :=
  ⟨rfl, rfl, rfl⟩

/-- C5: with section targets `S.1` and `S.1.2` and section references
`S.1.2` and `S.2`, the matched pool is exactly the `S.1.2` reference and
the orphaned pool exactly the `S.2` reference. -/
theorem orphan_completeness_concrete :
    find_orphans
      [{ ref_type := "section", ref_id := "S.1.2", raw_text := "Section S.1.2",
         volume := "v", page := 1 },
       { ref_type := "section", ref_id := "S.2", raw_text := "Section S.2",
         volume := "v", page := 2 }]
      [{ target_type := "section", target_id := "S.1", raw_text := "S.1 Intro",
         volume := "v", page := 3 },
       { target_type := "section", target_id := "S.1.2", raw_text := "S.1.2 Detail",
         volume := "v", page := 4 }] =
    ([{ ref_type := "section", ref_id := "S.1.2", raw_text := "Section S.1.2",
        volume := "v", page := 1 }],
     [{ ref_type := "section", ref_id := "S.2", raw_text := "Section S.2",
        volume := "v", page := 2 }]) := by
  decide

/-- C7: a page reading `requirements under 40 CFR Part 122, Chapter 5
describes permit conditions` produces no chapter reference `5`: the
`40 CFR` citation lies inside the regulatory window of the `Chapter 5`
match. -/
theorem regulatory_exclusion_chapter :
    (extract_references
      [(1, "requirements under 40 CFR Part 122, Chapter 5 describes permit conditions")]
      "vol1.pdf").filter
        (fun r => r.ref_type == "chapter" && r.ref_id == "5") = [] := by
  decide

/-- C2 counterexample: on a page whose text is exactly the span
`Table 8-14 (Source: DOE (2008b))`, `extract_references` does produce a
table reference `8-14` — the Source-attribution heuristics only look
before the match, and here the attribution follows it. -/
theorem source_after_match_not_excluded :
    ("table", "8-14") ∈
      (extract_references [(1, "Table 8-14 (Source: DOE (2008b))")] "vol1.pdf").map
        refKindId := by
  decide

/-- C2 amended: the Source-attribution exclusion applies when the
citation precedes the match — `Source: DOE (2008b), Table 8-14` yields
no reference at all — while the span with the attribution after the
match yields exactly the table reference `8-14`. -/
theorem source_citation_exclusion_amended :
    extract_references [(1, "Source: DOE (2008b), Table 8-14")] "vol1.pdf" = [] ∧
    (extract_references [(1, "Table 8-14 (Source: DOE (2008b))")] "vol1.pdf").map
        refKindId = [("table", "8-14")] := by
  constructor
  · decide
  · decide

/-- C3 counterexample: the compound span `Tables 1.2-1 and 1.2-2` of
this page lies inside a regulatory-citation window (`40 CFR` precedes
it), yet the second reference `1.2-2` is still emitted: the compound
loops never consult `is_regulatory_context`. -/
theorem compound_ignores_regulatory :
    is_regulatory_context
      "Under 40 CFR Part 50, Tables 1.2-1 and 1.2-2 show limits".data 22 44 = true ∧
    ("table", "1.2-2") ∈
      (extract_references
        [(1, "Under 40 CFR Part 50, Tables 1.2-1 and 1.2-2 show limits")]
        "vol1.pdf").map refKindId := by
  constructor
  · decide
  · decide

/-- C3 amended: compound references are guarded only by the
external-document check applied to the compound span.  A compound match
inside a regulatory window (not also external) still emits its second
reference while the primary match is suppressed by the regulatory check,
and a compound match inside an external-document window emits nothing. -/
theorem compound_guard_amended :
    (extract_references
      [(1, "Under 40 CFR Part 50, Tables 1.2-1 and 1.2-2 show limits")]
      "vol1.pdf").map refKindId = [("table", "1.2-2")] ∧
    extract_references
      [(1, "Tables 1.2-1 and 1.2-2 of the Final SWEIS summary")] "vol1.pdf" = [] := by
  constructor
  · decide
  · decide

/-- C4 failing input: on the page `see appendix a` the primary appendix
pattern (IGNORECASE, so `[A-Z]` accepts a lower-case letter) emits a
reference whose identifier is the un-upper-cased `a`; the compound
appendix path and the target extractor upper-case theirs, so this
reference can never match any target. -/
theorem appendix_primary_not_uppercased :
    (extract_references [(1, "see appendix a")] "vol1.pdf").map refKindId =
      [("appendix", "a")] := by
  decide

/-! ## Normalization idempotence (claim on `normalize_id` /
`normalize_section_id`) -/

/-- A character list is whitespace-normal when every whitespace character
in it is a plain space and no two whitespace characters are adjacent —
the shape produced by `re.sub(r"\s+", " ", s)`. -/
def wsNormal : List Char → Prop
  | [] => True
  | [c] => wsChar c = true → c = ' '
  | a :: b :: cs =>
    (wsChar a = true → a = ' ' ∧ wsChar b = false) ∧ wsNormal (b :: cs)

/-- The head of a whitespace collapse: a space if the input opened with
whitespace, the original first character otherwise. -/
theorem collapseWS_head? (b : Char) (cs : List Char) :
    (collapseWS (b :: cs)).head? = some (if wsChar b then ' ' else b) := by
  induction cs generalizing b with
  | nil => simp only [collapseWS]; split <;> rfl
  | cons c cs ih =>
    simp only [collapseWS]
    by_cases hb : wsChar b = true
    · by_cases hc : wsChar c = true
      · simp [hb, hc, ih c]
      · simp [hb, hc]
    · simp [hb]

/-- A whitespace collapse of a nonempty list is nonempty. -/
theorem collapseWS_ne_nil (b : Char) (cs : List Char) :
    collapseWS (b :: cs) ≠ [] := by
  intro h
  have := collapseWS_head? b cs
  rw [h] at this
  simp at this

/-- Whitespace collapse always yields a whitespace-normal list. -/
theorem wsNormal_collapseWS (cs : List Char) : wsNormal (collapseWS cs) := by
  induction cs with
  | nil => trivial
  | cons a cs ih =>
    cases cs with
    | nil =>
      simp only [collapseWS]
      split
      · intro _
        rfl
      · rename_i h
        intro hw
        exact absurd hw h
    | cons b cs2 =>
      by_cases hab : (wsChar a && wsChar b) = true
      · simpa only [collapseWS, hab, if_true] using ih
      · rcases hR : collapseWS (b :: cs2) with _ | ⟨h0, t0⟩
        · exact absurd hR (collapseWS_ne_nil b cs2)
        · have hhead := collapseWS_head? b cs2
          rw [hR] at hhead
          have hh0 : h0 = if wsChar b = true then ' ' else b := by
            simpa using hhead
          have ih2 : wsNormal (h0 :: t0) := by
            rw [← hR]
            exact ih
          simp only [collapseWS, hab, if_false, hR, wsNormal]
          refine ⟨?_, ih2⟩
          intro hx
          by_cases ha : wsChar a = true
          · have hb : wsChar b = false := by
              cases hwb : wsChar b with
              | false => rfl
              | true => exact absurd (by rw [ha, hwb]; rfl) hab
            constructor
            · simp [ha]
            · rw [hh0]
              simp [hb]
          · rw [if_neg ha] at hx
            exact absurd hx ha

/-- Whitespace collapse fixes every whitespace-normal list. -/
theorem collapseWS_eq_self : ∀ cs : List Char, wsNormal cs → collapseWS cs = cs
  | [], _ => rfl
  | [c], h => by
    simp only [collapseWS]
    split
    · rename_i hw
      rw [h hw]
    · rfl
  | a :: b :: cs, h => by
    obtain ⟨hpair, htail⟩ := h
    have hab : (wsChar a && wsChar b) = false := by
      cases hwa : wsChar a with
      | false => rfl
      | true =>
        obtain ⟨_, hb⟩ := hpair hwa
        rw [hb]
        rfl
    simp only [collapseWS, hab, Bool.false_eq_true, if_false,
      collapseWS_eq_self (b :: cs) htail]
    congr 1
    cases hwa : wsChar a with
    | false => rfl
    | true =>
      obtain ⟨ha, _⟩ := hpair hwa
      rw [if_pos rfl, ha]

/-- Every character of a whitespace collapse is a character of the input
or a plain space. -/
theorem mem_collapseWS : ∀ cs : List Char, ∀ c ∈ collapseWS cs, c ∈ cs ∨ c = ' '
  | [], c, h => by simp [collapseWS] at h
  | [a], c, h => by
    simp only [collapseWS] at h
    split at h
    · simp at h
      right
      exact h
    · simp at h
      left
      simp [h]
  | a :: b :: cs, c, h => by
    simp only [collapseWS] at h
    split at h
    · rcases mem_collapseWS (b :: cs) c h with hm | hs
      · left
        exact List.mem_cons_of_mem a hm
      · right
        exact hs
    · rcases List.mem_cons.mp h with hc | hm
      · by_cases hwa : wsChar a = true
        · right
          rw [hc, if_pos hwa]
        · left
          rw [hc, if_neg hwa]
          exact List.mem_cons_self a (b :: cs)
      · rcases mem_collapseWS (b :: cs) c hm with hm2 | hs
        · left
          exact List.mem_cons_of_mem a hm2
        · right
          exact hs

/-- The last element of a whitespace collapse is not whitespace when the
input's last element is not. -/
theorem collapseWS_getLast? : ∀ cs : List Char,
    (∀ c, cs.getLast? = some c → wsChar c = false) →
    ∀ c, (collapseWS cs).getLast? = some c → wsChar c = false
  | [], _, c, hc => by simp [collapseWS] at hc
  | [a], h, c, hc => by
    simp only [collapseWS] at hc
    split at hc
    · rename_i hwa
      have := h a (by simp)
      rw [this] at hwa
      simp at hwa
    · simp at hc
      apply h
      rw [hc]
      simp
  | a :: b :: cs, h, c, hc => by
    have htail : ∀ c, (b :: cs).getLast? = some c → wsChar c = false := by
      intro d hd
      apply h
      rw [List.getLast?_cons_cons]
      exact hd
    simp only [collapseWS] at hc
    split at hc
    · exact collapseWS_getLast? (b :: cs) htail c hc
    · rcases hR : collapseWS (b :: cs) with _ | ⟨h0, t0⟩
      · exact absurd hR (collapseWS_ne_nil b cs)
      · rw [hR] at hc
        rw [List.getLast?_cons_cons] at hc
        rw [← hR] at hc
        exact collapseWS_getLast? (b :: cs) htail c hc

/-- The head of `dropWhile p` never satisfies `p`. -/
theorem head?_dropWhile (p : α → Bool) :
    ∀ l : List α, ∀ a, (l.dropWhile p).head? = some a → p a = false
  | [], a, h => by simp [List.dropWhile] at h
  | b :: l, a, h => by
    rw [List.dropWhile_cons] at h
    split at h
    · exact head?_dropWhile p l a h
    · rename_i hb
      simp at h
      rw [← h]
      cases hpb : p b with
      | false => rfl
      | true => exact absurd hpb hb

/-- The last element survives `dropWhile`. -/
theorem getLast?_dropWhile (p : α → Bool) (l : List α) (a : α)
    (h : (l.dropWhile p).getLast? = some a) : l.getLast? = some a := by
  obtain ⟨t, ht⟩ := List.dropWhile_suffix (l := l) p
  rcases hd : l.dropWhile p with _ | ⟨h0, t0⟩
  · rw [hd] at h
    simp at h
  · rw [← ht, List.getLast?_append]
    rw [hd] at h
    rw [hd, h]
    rfl

/-- A list whose head is not whitespace is fixed by `dropWhile wsChar`. -/
theorem dropWhile_ws_eq_self (l : List Char)
    (h : ∀ c, l.head? = some c → wsChar c = false) :
    l.dropWhile wsChar = l := by
  cases l with
  | nil => rfl
  | cons a l =>
    rw [List.dropWhile_cons, if_neg]
    rw [h a rfl]
    simp

/-- A list with non-whitespace head and last element is fixed by the
strip operation. -/
theorem stripL_eq_self (l : List Char)
    (hh : ∀ c, l.head? = some c → wsChar c = false)
    (hl : ∀ c, l.getLast? = some c → wsChar c = false) :
    stripL l = l := by
  unfold stripL lstripL
  rw [dropWhile_ws_eq_self l hh]
  rw [dropWhile_ws_eq_self l.reverse (by
    intro c hc
    rw [List.head?_reverse] at hc
    exact hl c hc)]
  exact List.reverse_reverse l

/-- Dash unification cannot change whether a character is whitespace. -/
theorem wsChar_dashF (c : Char) :
    wsChar (if c = '–' || c = '—' then '-' else c) = wsChar c := by
  split
  · rename_i h
    rcases (by simpa using h : c = '–' ∨ c = '—') with h1 | h1 <;> subst h1 <;> decide
  · rfl

/-- The head of a stripped list is not whitespace. -/
theorem stripL_head (l : List Char) (c : Char) (h : (stripL l).head? = some c) :
    wsChar c = false := by
  unfold stripL lstripL at h
  rw [List.head?_reverse] at h
  have h2 := getLast?_dropWhile wsChar _ _ h
  rw [List.getLast?_reverse] at h2
  exact head?_dropWhile wsChar _ _ h2

/-- The last element of a stripped list is not whitespace. -/
theorem stripL_getLast (l : List Char) (c : Char)
    (h : (stripL l).getLast? = some c) : wsChar c = false := by
  unfold stripL lstripL at h
  rw [List.getLast?_reverse] at h
  exact head?_dropWhile wsChar _ _ h

/-- A normalized identifier never starts with whitespace. -/
theorem normalizeIdL_head (raw : List Char) (c : Char)
    (h : (normalizeIdL raw).head? = some c) : wsChar c = false := by
  unfold normalizeIdL at h
  rcases hM : dashMap (stripL raw) with _ | ⟨b, t⟩
  · rw [hM] at h
    simp [collapseWS] at h
  · have hb : wsChar b = false := by
      have hbm : (dashMap (stripL raw)).head? = some b := by
        rw [hM]
        rfl
      unfold dashMap at hbm
      rw [List.head?_map] at hbm
      rcases ho : (stripL raw).head? with _ | b0
      · rw [ho] at hbm
        simp at hbm
      · rw [ho] at hbm
        have hbm2 : (if b0 = '–' || b0 = '—' then '-' else b0) = b := by
          simpa using hbm
        rw [← hbm2, wsChar_dashF]
        exact stripL_head raw b0 ho
    rw [hM, collapseWS_head? b t] at h
    rw [hb] at h
    simp only [Bool.false_eq_true, if_false, Option.some.injEq] at h
    rw [← h]
    exact hb

/-- A normalized identifier never ends with whitespace. -/
theorem normalizeIdL_getLast (raw : List Char) (c : Char)
    (h : (normalizeIdL raw).getLast? = some c) : wsChar c = false := by
  unfold normalizeIdL at h
  refine collapseWS_getLast? (dashMap (stripL raw)) ?_ c h
  intro d hd
  unfold dashMap at hd
  rw [List.getLast?_map] at hd
  rcases ho : (stripL raw).getLast? with _ | d0
  · rw [ho] at hd
    simp at hd
  · rw [ho] at hd
    have hd2 : (if d0 = '–' || d0 = '—' then '-' else d0) = d := by
      simpa using hd
    rw [← hd2, wsChar_dashF]
    exact stripL_getLast raw d0 ho

/-- Dash unification leaves no en or em dashes in its output. -/
theorem not_dash_mem_dashMap (l : List Char) (c : Char) (h : c ∈ dashMap l) :
    c ≠ '–' ∧ c ≠ '—' := by
  unfold dashMap at h
  rcases List.mem_map.mp h with ⟨x, _, hx⟩
  rw [← hx]
  split
  · exact ⟨by decide, by decide⟩
  · rename_i hcond
    constructor
    · intro hc
      exact hcond (by rw [hc]; rfl)
    · intro hc
      apply hcond
      rw [hc]
      simp

/-- Dash unification fixes a list that contains no en or em dash. -/
theorem dashMap_eq_self (l : List Char) (h : ∀ c ∈ l, c ≠ '–' ∧ c ≠ '—') :
    dashMap l = l := by
  unfold dashMap
  rw [show l.map (fun c => if c = '–' || c = '—' then '-' else c) = l.map id from
    List.map_congr_left ?_, List.map_id]
  intro a ha
  rw [if_neg]
  · rfl
  · intro hcond
    rcases (by simpa using hcond : a = '–' ∨ a = '—') with h1 | h1
    · exact (h a ha).1 h1
    · exact (h a ha).2 h1

/-- A normalized identifier contains no en or em dash. -/
theorem normalizeIdL_not_dash (raw : List Char) (c : Char)
    (h : c ∈ normalizeIdL raw) : c ≠ '–' ∧ c ≠ '—' := by
  unfold normalizeIdL at h
  rcases mem_collapseWS _ c h with hm | hs
  · exact not_dash_mem_dashMap _ c hm
  · rw [hs]
    exact ⟨by decide, by decide⟩

/-- Core of the idempotence of `normalize_id`. -/
theorem normalizeIdL_idem (raw : List Char) :
    normalizeIdL (normalizeIdL raw) = normalizeIdL raw := by
  have h1 : stripL (normalizeIdL raw) = normalizeIdL raw :=
    stripL_eq_self _ (normalizeIdL_head raw) (normalizeIdL_getLast raw)
  have h2 : dashMap (normalizeIdL raw) = normalizeIdL raw :=
    dashMap_eq_self _ (normalizeIdL_not_dash raw)
  have h3 : collapseWS (normalizeIdL raw) = normalizeIdL raw :=
    collapseWS_eq_self _ (wsNormal_collapseWS _)
  show collapseWS (dashMap (stripL (normalizeIdL raw))) = normalizeIdL raw
  rw [h1, h2, h3]

/-- Whitespace normality restricts to prefixes. -/
theorem wsNormal_append_left : ∀ l r : List Char, wsNormal (l ++ r) → wsNormal l
  | [], _, _ => trivial
  | [c], r, h => by
    cases r with
    | nil => exact h
    | cons d r2 => exact fun hw => (h.1 hw).1
  | a :: b :: l, r, h => ⟨h.1, wsNormal_append_left (b :: l) r h.2⟩

/-- Stripping trailing dots yields a prefix of the input. -/
theorem rstripDots_front (cs : List Char) : rstripDots cs <+: cs := by
  unfold rstripDots
  rw [← List.reverse_suffix]
  rw [List.reverse_reverse]
  exact List.dropWhile_suffix _

/-- Dropping while is idempotent. -/
theorem dropWhile_dropWhile (p : α → Bool) (l : List α) :
    (l.dropWhile p).dropWhile p = l.dropWhile p := by
  rcases hd : l.dropWhile p with _ | ⟨a, t⟩
  · rfl
  · rw [List.dropWhile_cons, if_neg]
    rw [head?_dropWhile p l a (by rw [hd]; rfl)]
    simp

/-- Stripping trailing dots is idempotent. -/
theorem rstripDots_idem (cs : List Char) :
    rstripDots (rstripDots cs) = rstripDots cs := by
  unfold rstripDots
  rw [List.reverse_reverse, dropWhile_dropWhile]

/-- Boolean test used in the amended idempotence statement: the string
does not end in a whitespace character. -/
def endsNonWs (s : String) : Bool :=
  match s.data.getLast? with
  | none => true
  | some c => !wsChar c

/-- C8 counterexample: `normalize_section_id` is not idempotent —
stripping the trailing dot of the normalized `"S.1 ."` exposes a
trailing space, which a second normalization then removes. -/
theorem normalize_section_id_not_idempotent :
    normalize_section_id (normalize_section_id "S.1 .") ≠
      normalize_section_id "S.1 ." := by
  decide

/-- C8 amended: `normalize_id` is idempotent on every string, and
`normalize_section_id` is idempotent on every string for which the first
normalization does not end in whitespace (the only failures being
inputs whose trailing dots hide trailing whitespace). -/
theorem normalization_idempotence_amended :
    (∀ s : String, normalize_id (normalize_id s) = normalize_id s) ∧
    (∀ s : String, endsNonWs (normalize_section_id s) = true →
      normalize_section_id (normalize_section_id s) = normalize_section_id s) := by
  constructor
  · intro s
    exact congrArg String.mk (normalizeIdL_idem s.data)
  · intro s hend
    have hout : ∀ c ∈ rstripDots (normalizeIdL s.data), c ∈ normalizeIdL s.data :=
      fun c hc => (rstripDots_front (normalizeIdL s.data)).mem hc
    obtain ⟨r, hr⟩ := (rstripDots_front (normalizeIdL s.data))
    have hlast : ∀ c, (rstripDots (normalizeIdL s.data)).getLast? = some c →
        wsChar c = false := by
      intro c hc
      have : endsNonWs (normalize_section_id s) =
          !wsChar c := by
        show (match (rstripDots (normalizeIdL s.data)).getLast? with
          | none => true
          | some c => !wsChar c) = !wsChar c
        rw [hc]
      rw [hend] at this
      cases hw : wsChar c with
      | false => rfl
      | true =>
        rw [hw] at this
        simp at this
    have hhead : ∀ c, (rstripDots (normalizeIdL s.data)).head? = some c →
        wsChar c = false := by
      intro c hc
      have hne : rstripDots (normalizeIdL s.data) ≠ [] := by
        intro hnil
        rw [hnil] at hc
        simp at hc
      apply normalizeIdL_head s.data
      rw [← hr, List.head?_append_of_ne_nil _ hne]
      exact hc
    have hnorm : wsNormal (rstripDots (normalizeIdL s.data)) := by
      apply wsNormal_append_left _ r
      rw [hr]
      exact wsNormal_collapseWS _
    have hfix : normalizeIdL (rstripDots (normalizeIdL s.data)) =
        rstripDots (normalizeIdL s.data) := by
      show collapseWS (dashMap (stripL (rstripDots (normalizeIdL s.data)))) = _
      rw [stripL_eq_self _ hhead hlast]
      rw [dashMap_eq_self _ (fun c hc => normalizeIdL_not_dash s.data c (hout c hc))]
      exact collapseWS_eq_self _ hnorm
    show (⟨rstripDots (normalizeIdL (rstripDots (normalizeIdL s.data)))⟩ : String) =
      ⟨rstripDots (normalizeIdL s.data)⟩
    rw [hfix, rstripDots_idem]

/-- Witness for the amended C8 idempotence theorem at concrete inputs. -/
theorem normalization_idempotence_amended_witness :
    normalize_id (normalize_id "  A –  B  ") = normalize_id "  A –  B  " ∧
    (endsNonWs (normalize_section_id " 5.2. ") = true ∧
      normalize_section_id (normalize_section_id " 5.2. ") =
        normalize_section_id " 5.2. ") :=
  ⟨normalization_idempotence_amended.1 "  A –  B  ",
   by decide,
   normalization_idempotence_amended.2 " 5.2. " (by decide)⟩

/-! ## Partition properties of `find_orphans` -/

/-- Splitting a key list by a predicate and flattening both halves is a
permutation of flattening the whole list. -/
theorem flatMap_filter_split_perm (p : α → Bool) (g : α → List β) :
    ∀ ks : List α,
    ((ks.filter p).flatMap g ++ (ks.filter (fun k => !p k)).flatMap g).Perm
      (ks.flatMap g)
  | [] => by simp
  | k :: ks => by
    have ih := flatMap_filter_split_perm p g ks
    by_cases hp : p k = true
    · have hnp : (!p k) = false := by
        rw [hp]
        rfl
      rw [List.flatMap_cons, List.filter_cons, if_pos hp, List.filter_cons,
        if_neg (by rw [hnp]; simp), List.flatMap_cons, List.append_assoc]
      exact ih.append_left (g k)
    · have hp2 : p k = false := by
        cases h : p k with
        | false => rfl
        | true => exact absurd h hp
      have hnp : (!p k) = true := by
        rw [hp2]
        rfl
      rw [List.flatMap_cons, List.filter_cons, if_neg (by rw [hp2]; simp),
        List.filter_cons, if_pos hnp, List.flatMap_cons, ← List.append_assoc]
      refine List.Perm.trans (List.perm_append_comm.append_right _) ?_
      rw [List.append_assoc]
      exact ih.append_left (g k)

/-- Grouping an extra element whose key is absent from the key list
changes nothing. -/
theorem flatMap_groups_skip (keyOf : α → String) (x : α) (l : List α) :
    ∀ ks : List String, keyOf x ∉ ks →
    ks.flatMap (fun k => (x :: l).filter (fun y => keyOf y == k)) =
      ks.flatMap (fun k => l.filter (fun y => keyOf y == k))
  | [], _ => rfl
  | k :: ks, hx => by
    have hk : ¬ ((keyOf x == k) = true) := by
      intro h
      rw [eq_of_beq h] at hx
      exact hx (List.mem_cons_self k ks)
    rw [List.flatMap_cons, List.flatMap_cons, List.filter_cons, if_neg hk]
    rw [flatMap_groups_skip keyOf x l ks (fun hm => hx (List.mem_cons_of_mem k hm))]

/-- Pulling one element out of its group: grouping `x :: l` by a
duplicate-free key list containing `x`'s key permutes to `x` consed onto
the grouping of `l`. -/
theorem flatMap_groups_cons (keyOf : α → String) (x : α) (l : List α) :
    ∀ ks : List String, ks.Nodup → keyOf x ∈ ks →
    (ks.flatMap (fun k => (x :: l).filter (fun y => keyOf y == k))).Perm
      (x :: ks.flatMap (fun k => l.filter (fun y => keyOf y == k)))
  | [], _, hx => absurd hx (List.not_mem_nil _)
  | k :: ks, hnd, hx => by
    have hknotin : k ∉ ks := (List.nodup_cons.mp hnd).1
    have hndks : ks.Nodup := (List.nodup_cons.mp hnd).2
    by_cases hxk : keyOf x = k
    · have hb : (keyOf x == k) = true := beq_iff_eq.mpr hxk
      have hnotks : keyOf x ∉ ks := by
        rw [hxk]
        exact hknotin
      rw [List.flatMap_cons, List.flatMap_cons, List.filter_cons, if_pos hb]
      rw [flatMap_groups_skip keyOf x l ks hnotks, List.cons_append]
    · have hk : ¬ ((keyOf x == k) = true) := by
        intro h
        exact hxk (eq_of_beq h)
      have hmem : keyOf x ∈ ks := by
        rcases List.mem_cons.mp hx with h | h
        · exact absurd h hxk
        · exact h
      have ih := flatMap_groups_cons keyOf x l ks hndks hmem
      rw [List.flatMap_cons, List.flatMap_cons, List.filter_cons, if_neg hk]
      exact (ih.append_left _).trans List.perm_middle

/-- Grouping a list by any duplicate-free key list covering all its keys
is a permutation of the list itself. -/
theorem flatMap_groups_perm (keyOf : α → String) :
    ∀ (l : List α) (ks : List String), ks.Nodup → (∀ x ∈ l, keyOf x ∈ ks) →
    (ks.flatMap (fun k => l.filter (fun y => keyOf y == k))).Perm l
  | [], ks, _, _ => by simp
  | x :: l, ks, hnd, hcov => by
    have h1 := flatMap_groups_cons keyOf x l ks hnd (hcov x (List.mem_cons_self x l))
    have h2 := flatMap_groups_perm keyOf l ks hnd
      (fun y hy => hcov y (List.mem_cons_of_mem x hy))
    exact h1.trans (h2.cons x)

/-- The key accumulator of `seenKeys` preserves freedom from duplicates. -/
theorem seenKeys_foldl_nodup :
    ∀ (refs : List Reference) (acc : List String), acc.Nodup →
    (refs.foldl (fun ks r => if refKey r ∈ ks then ks else ks ++ [refKey r])
      acc).Nodup
  | [], _, h => h
  | r :: refs, acc, h => by
    apply seenKeys_foldl_nodup refs
    show (if refKey r ∈ acc then acc else acc ++ [refKey r]).Nodup
    split
    · exact h
    · rename_i hnot
      simp [List.nodup_append, h, hnot]

/-- Keys already accumulated stay accumulated. -/
theorem seenKeys_foldl_mono :
    ∀ (refs : List Reference) (acc : List String) (k : String), k ∈ acc →
    k ∈ refs.foldl (fun ks r => if refKey r ∈ ks then ks else ks ++ [refKey r]) acc
  | [], _, _, h => h
  | r :: refs, acc, k, h => by
    apply seenKeys_foldl_mono refs
    show k ∈ (if refKey r ∈ acc then acc else acc ++ [refKey r])
    split
    · exact h
    · exact List.mem_append_left _ h

/-- Every reference key of the traversed list ends up accumulated. -/
theorem seenKeys_foldl_mem :
    ∀ (refs : List Reference) (acc : List String) (r : Reference), r ∈ refs →
    refKey r ∈
      refs.foldl (fun ks r => if refKey r ∈ ks then ks else ks ++ [refKey r]) acc
  | [], _, r, h => absurd h (List.not_mem_nil r)
  | r0 :: refs, acc, r, h => by
    rcases List.mem_cons.mp h with h0 | h0
    · subst h0
      apply seenKeys_foldl_mono refs
      show refKey r ∈ (if refKey r ∈ acc then acc else acc ++ [refKey r])
      split
      · assumption
      · exact List.mem_append_right _ (List.mem_singleton.mpr rfl)
    · exact seenKeys_foldl_mem refs _ r h0

/-- `seenKeys` is duplicate-free. -/
theorem seenKeys_nodup (refs : List Reference) : (seenKeys refs).Nodup :=
  seenKeys_foldl_nodup refs [] List.nodup_nil

/-- Every reference of the pool has its key in `seenKeys`. -/
theorem mem_seenKeys (refs : List Reference) (r : Reference) (h : r ∈ refs) :
    refKey r ∈ seenKeys refs :=
  seenKeys_foldl_mem refs [] r h

/-- Membership in the matched component: being in the pool with a
matched key. -/
theorem mem_find_orphans_matched (refs : List Reference) (targets : List Target)
    (r : Reference) :
    r ∈ (find_orphans refs targets).1 ↔
      r ∈ refs ∧ keyIsMatched targets (refKey r) = true := by
  show r ∈ ((seenKeys refs).filter _).flatMap _ ↔ _
  rw [List.mem_flatMap]
  constructor
  · rintro ⟨k, hk, hr⟩
    rw [List.mem_filter] at hk
    rw [List.mem_filter] at hr
    have hkey : refKey r = k := eq_of_beq (by simpa using hr.2)
    exact ⟨hr.1, hkey ▸ hk.2⟩
  · rintro ⟨hr, hp⟩
    refine ⟨refKey r, ?_, ?_⟩
    · rw [List.mem_filter]
      exact ⟨mem_seenKeys refs r hr, hp⟩
    · rw [List.mem_filter]
      exact ⟨hr, by simp⟩

/-- Membership in the orphaned component: being in the pool with an
unmatched key. -/
theorem mem_find_orphans_orphaned (refs : List Reference) (targets : List Target)
    (r : Reference) :
    r ∈ (find_orphans refs targets).2 ↔
      r ∈ refs ∧ keyIsMatched targets (refKey r) = false := by
  show r ∈ ((seenKeys refs).filter _).flatMap _ ↔ _
  rw [List.mem_flatMap]
  constructor
  · rintro ⟨k, hk, hr⟩
    rw [List.mem_filter] at hk
    rw [List.mem_filter] at hr
    have hkey : refKey r = k := eq_of_beq (by simpa using hr.2)
    refine ⟨hr.1, ?_⟩
    have h2 := hk.2
    rw [← hkey] at h2
    cases h : keyIsMatched targets (refKey r) with
    | false => rfl
    | true =>
      rw [h] at h2
      simp at h2
  · rintro ⟨hr, hp⟩
    refine ⟨refKey r, ?_, ?_⟩
    · rw [List.mem_filter]
      refine ⟨mem_seenKeys refs r hr, ?_⟩
      rw [hp]
      rfl
    · rw [List.mem_filter]
      exact ⟨hr, by simp⟩

/-- C6: `find_orphans` is a binary partition by logical identity: matched
and orphaned together are a permutation of the input pool (every
occurrence appears exactly once), no reference lies in both components,
and two references with equal `(kind, identifier)` always receive the
same verdict. -/
theorem find_orphans_partition (refs : List Reference) (targets : List Target) :
    ((find_orphans refs targets).1 ++ (find_orphans refs targets).2).Perm refs ∧
    (∀ r, r ∈ (find_orphans refs targets).1 → r ∉ (find_orphans refs targets).2) ∧
    (∀ r1 r2, r1 ∈ refs → r2 ∈ refs → r1.ref_type = r2.ref_type →
      r1.ref_id = r2.ref_id →
      ((r1 ∈ (find_orphans refs targets).1 ↔ r2 ∈ (find_orphans refs targets).1) ∧
       (r1 ∈ (find_orphans refs targets).2 ↔ r2 ∈ (find_orphans refs targets).2))) := by
  refine ⟨?_, ?_, ?_⟩
  · refine List.Perm.trans ?_ (flatMap_groups_perm refKey refs (seenKeys refs)
      (seenKeys_nodup refs) (fun x hx => mem_seenKeys refs x hx))
    exact flatMap_filter_split_perm (fun k => keyIsMatched targets k)
      (fun k => refs.filter (fun r => refKey r == k)) (seenKeys refs)
  · intro r h1 h2
    have hm := (mem_find_orphans_matched refs targets r).mp h1
    have ho := (mem_find_orphans_orphaned refs targets r).mp h2
    rw [hm.2] at ho
    simp at ho
  · intro r1 r2 h1 h2 hty hid
    have hkey : refKey r1 = refKey r2 := by
      unfold refKey
      rw [hty, hid]
    constructor
    · rw [mem_find_orphans_matched, mem_find_orphans_matched, hkey]
      simp [h1, h2]
    · rw [mem_find_orphans_orphaned, mem_find_orphans_orphaned, hkey]
      simp [h1, h2]

/-- Concrete reference pool used by the partition witness. -/
def wRefA : Reference :=
  { ref_type := "section", ref_id := "W.1", raw_text := "Section W.1",
    volume := "v", page := 1 }

/-- Second concrete reference of the partition witness pool. -/
def wRefB : Reference :=
  { ref_type := "section", ref_id := "W.9", raw_text := "Section W.9",
    volume := "v", page := 2 }

/-- Concrete target pool used by the partition witness. -/
def wTgt : Target :=
  { target_type := "section", target_id := "W.1", raw_text := "W.1 Title",
    volume := "v", page := 3 }

/-- Witness for C6: the partition theorem applied at a concrete two-reference
pool, all hypotheses discharged there. -/
theorem find_orphans_partition_witness :
    ((find_orphans [wRefA, wRefB] [wTgt]).1 ++
      (find_orphans [wRefA, wRefB] [wTgt]).2).Perm [wRefA, wRefB] ∧
    wRefA ∉ (find_orphans [wRefA, wRefB] [wTgt]).2 ∧
    (wRefA ∈ (find_orphans [wRefA, wRefB] [wTgt]).1 ↔
      wRefA ∈ (find_orphans [wRefA, wRefB] [wTgt]).1) :=
  ⟨(find_orphans_partition [wRefA, wRefB] [wTgt]).1,
   (find_orphans_partition [wRefA, wRefB] [wTgt]).2.1 wRefA (by decide),
   ((find_orphans_partition [wRefA, wRefB] [wTgt]).2.2 wRefA wRefA (by decide)
      (by decide) rfl rfl).1⟩

/-- Flattening ancestor prefixes over targets factors through the
identifier image. -/
theorem flatMap_ancestor_eq :
    ∀ l : List Target,
    l.flatMap (fun t => ancestorPrefixes t.target_id) =
      (l.map (fun t => t.target_id)).flatMap ancestorPrefixes
  | [] => rfl
  | t :: l => by
    rw [List.flatMap_cons, List.map_cons, List.flatMap_cons, flatMap_ancestor_eq l]

/-- When the only section target identifier is `5.2.4`, the known section
identifier set of `find_orphans` is `{5.2.4}` plus its ancestor closure
`{5, 5.2}`. -/
theorem knownTargetIds_section_524 (targets : List Target)
    (ht : (targets.filter (fun t => t.target_type == "section")).map
      (fun t => t.target_id) = ["5.2.4"]) :
    knownTargetIds targets "section" = ["5.2.4", "5", "5.2"] := by
  unfold knownTargetIds
  show (targets.filter (fun t => t.target_type == "section")).map
      (fun t => t.target_id) ++
    (targets.filter (fun t => t.target_type == "section")).flatMap
      (fun t => ancestorPrefixes t.target_id) = ["5.2.4", "5", "5.2"]
  rw [flatMap_ancestor_eq, ht]
  decide

/-- C1: in any target pool whose section targets are exactly one target
with identifier `5.2.4`, a section reference `5` is matched, a section
reference `5.2` is matched, and a section reference `5.3` is orphaned. -/
theorem section_prefix_closure (targets : List Target)
    (ht : (targets.filter (fun t => t.target_type == "section")).map
      (fun t => t.target_id) = ["5.2.4"])
    (refs : List Reference) (r : Reference) (hr : r ∈ refs)
    (hty : r.ref_type = "section") :
    (r.ref_id = "5" → r ∈ (find_orphans refs targets).1) ∧
    (r.ref_id = "5.2" → r ∈ (find_orphans refs targets).1) ∧
    (r.ref_id = "5.3" → r ∈ (find_orphans refs targets).2) := by
  have hknown := knownTargetIds_section_524 targets ht
  refine ⟨?_, ?_, ?_⟩
  · intro hid
    rw [mem_find_orphans_matched]
    refine ⟨hr, ?_⟩
    have hkey : refKey r = "section:5" := by
      unfold refKey
      rw [hty, hid]
      decide
    rw [hkey]
    show ((knownTargetIds targets "section").contains "5" ||
      (("section" : String) == "section" &&
        sectionPrefixScan (knownTargetIds targets "section") "5")) = true
    rw [hknown]
    decide
  · intro hid
    rw [mem_find_orphans_matched]
    refine ⟨hr, ?_⟩
    have hkey : refKey r = "section:5.2" := by
      unfold refKey
      rw [hty, hid]
      decide
    rw [hkey]
    show ((knownTargetIds targets "section").contains "5.2" ||
      (("section" : String) == "section" &&
        sectionPrefixScan (knownTargetIds targets "section") "5.2")) = true
    rw [hknown]
    decide
  · intro hid
    rw [mem_find_orphans_orphaned]
    refine ⟨hr, ?_⟩
    have hkey : refKey r = "section:5.3" := by
      unfold refKey
      rw [hty, hid]
      decide
    rw [hkey]
    show ((knownTargetIds targets "section").contains "5.3" ||
      (("section" : String) == "section" &&
        sectionPrefixScan (knownTargetIds targets "section") "5.3")) = false
    rw [hknown]
    decide

/-- Witness for C1: the prefix-closure theorem applied at a concrete pool with
the single section target `5.2.4` and a single reference `5`. -/
theorem section_prefix_closure_witness :
    ({ ref_type := "section", ref_id := "5", raw_text := "Section 5",
       volume := "v", page := 1 : Reference } ∈
      (find_orphans
        [{ ref_type := "section", ref_id := "5", raw_text := "Section 5",
           volume := "v", page := 1 }]
        [{ target_type := "section", target_id := "5.2.4",
           raw_text := "5.2.4 Analysis", volume := "v", page := 7 }]).1) :=
  (section_prefix_closure
    [{ target_type := "section", target_id := "5.2.4",
       raw_text := "5.2.4 Analysis", volume := "v", page := 7 }]
    (by decide)
    [{ ref_type := "section", ref_id := "5", raw_text := "Section 5",
       volume := "v", page := 1 }]
    _ (by decide) rfl).1 rfl

/-! ## Redundancy of the ancestor-prefix closure -/

/-- A dot split never yields an empty piece list. -/
theorem splitDots_ne_nil : ∀ cs : List Char, splitDots cs ≠ []
  | [] => by
    unfold splitDots
    exact List.cons_ne_nil _ _
  | c :: cs => by
    unfold splitDots
    split
    · exact List.cons_ne_nil _ _
    · split
      · exact List.cons_ne_nil _ _
      · exact List.cons_ne_nil _ _

/-- Unfolding of `joinDots` on a cons with nonempty tail. -/
theorem joinDots_cons_of_ne_nil (p : List Char) (ps : List (List Char))
    (h : ps ≠ []) : joinDots (p :: ps) = p ++ '.' :: joinDots ps := by
  cases ps with
  | nil => exact absurd rfl h
  | cons q qs => rfl

/-- Joining the dot split restores the original characters. -/
theorem joinDots_splitDots : ∀ cs : List Char, joinDots (splitDots cs) = cs
  | [] => rfl
  | c :: cs => by
    unfold splitDots
    split
    · rename_i hc
      subst hc
      rw [joinDots_cons_of_ne_nil [] (splitDots cs) (splitDots_ne_nil cs)]
      rw [joinDots_splitDots cs]
      rfl
    · rename_i hc
      split
      · rename_i heq
        exact absurd heq (splitDots_ne_nil cs)
      · rename_i p ps heq
        have hIH := joinDots_splitDots cs
        rw [heq] at hIH
        cases ps with
        | nil =>
          show c :: p = c :: cs
          rw [show p = cs from hIH]
        | cons q qs =>
          show (c :: p) ++ '.' :: joinDots (q :: qs) = c :: cs
          rw [List.cons_append,
            show p ++ '.' :: joinDots (q :: qs) = cs from hIH]

/-- Joining a concatenation of nonempty piece lists inserts one dot. -/
theorem joinDots_append : ∀ xs ys : List (List Char), xs ≠ [] → ys ≠ [] →
    joinDots (xs ++ ys) = joinDots xs ++ '.' :: joinDots ys
  | [], _, hx, _ => absurd rfl hx
  | [p], ys, _, hy => by
    rw [List.singleton_append, joinDots_cons_of_ne_nil p ys hy]
    rfl
  | p :: q :: xs, ys, _, hy => by
    rw [List.cons_append]
    rw [joinDots_cons_of_ne_nil p ((q :: xs) ++ ys) (by simp)]
    rw [joinDots_append (q :: xs) ys (by simp) hy]
    rw [joinDots_cons_of_ne_nil p (q :: xs) (by simp)]
    simp [List.append_assoc]

/-- Concatenation of strings concatenates their character lists. -/
theorem str_data_append (s t : String) : (s ++ t).data = s.data ++ t.data := by
  cases s
  cases t
  rfl

/-- Every ancestor prefix is a strict dot-prefix of its identifier: the
identifier's characters are the prefix, a dot, and a nonempty rest. -/
theorem ancestorPrefixes_spec (tid q : String) (hq : q ∈ ancestorPrefixes tid) :
    ∃ rest : List Char, tid.data = q.data ++ '.' :: rest := by
  unfold ancestorPrefixes at hq
  simp only [List.mem_map] at hq
  obtain ⟨i, hi, hqi⟩ := hq
  have hbounds := List.mem_range'_1.mp hi
  have hlenpos : 0 < (splitDots tid.data).length :=
    List.length_pos.mpr (splitDots_ne_nil tid.data)
  have hilt : i < (splitDots tid.data).length := by omega
  have hipos : 1 ≤ i := hbounds.1
  have hq2 : q.data = joinDots ((splitDots tid.data).take i) := by
    rw [← hqi]
  have htake : (splitDots tid.data).take i ≠ [] := by
    intro h
    have hlen := congrArg List.length h
    rw [List.length_take] at hlen
    simp only [List.length_nil] at hlen
    omega
  have hdrop : (splitDots tid.data).drop i ≠ [] := by
    intro h
    have hlen := congrArg List.length h
    rw [List.length_drop] at hlen
    simp only [List.length_nil] at hlen
    omega
  refine ⟨joinDots ((splitDots tid.data).drop i), ?_⟩
  have hsplit := List.take_append_drop i (splitDots tid.data)
  have hjoin : joinDots (splitDots tid.data) =
      joinDots ((splitDots tid.data).take i) ++ '.' ::
        joinDots ((splitDots tid.data).drop i) := by
    rw [← joinDots_append _ _ htake hdrop, hsplit]
  rw [hq2]
  conv_lhs => rw [← joinDots_splitDots tid.data]
  exact hjoin

/-- The colon-key verdict: section known sets with closure decompose as
the closure-free sets followed by the flattened ancestor prefixes. -/
theorem knownTargetIds_section (targets : List Target) :
    knownTargetIds targets "section" =
      knownTargetIdsNC targets "section" ++
      (targets.filter (fun t => t.target_type == "section")).flatMap
        (fun t => ancestorPrefixes t.target_id) := rfl

/-- For kinds other than `section` the two known sets coincide. -/
theorem knownTargetIds_nonsection (targets : List Target) (rt : String)
    (h : (rt == "section") = false) :
    knownTargetIds targets rt = knownTargetIdsNC targets rt := by
  unfold knownTargetIds knownTargetIdsNC
  rw [if_neg]
  · exact List.append_nil _
  · rw [h]
    simp

/-- Every element of the flattened ancestor prefixes is a strict
dot-prefix of some concrete known section identifier. -/
theorem mem_closure_startswith (targets : List Target) (q : String)
    (hq : q ∈ (targets.filter (fun t => t.target_type == "section")).flatMap
      (fun t => ancestorPrefixes t.target_id)) :
    ∃ b, b ∈ knownTargetIdsNC targets "section" ∧
      ∃ rest, b.data = q.data ++ '.' :: rest := by
  rw [List.mem_flatMap] at hq
  obtain ⟨t, ht, hq2⟩ := hq
  refine ⟨t.target_id, ?_, ancestorPrefixes_spec _ _ hq2⟩
  unfold knownTargetIdsNC
  exact List.mem_map.mpr ⟨t, ht, rfl⟩

/-- Lifting the prefix-scan condition along a strict dot-prefix: if `b`
extends `q` by a dot, any scan hit on `q` is a scan hit on `b` in its
`startswith` form. -/
theorem pyStartswith_extend (b q rid : String) (rest : List Char)
    (hb : b.data = q.data ++ '.' :: rest)
    (hq : pyStartswith q (rid ++ ".") = true ∨ q = rid) :
    pyStartswith b (rid ++ ".") = true := by
  rcases hq with hq | hq
  · unfold pyStartswith at hq ⊢
    rw [List.isPrefixOf_iff_prefix] at hq ⊢
    exact hq.trans ⟨'.' :: rest, hb.symm⟩
  · subst hq
    unfold pyStartswith
    rw [List.isPrefixOf_iff_prefix, str_data_append]
    refine ⟨rest, ?_⟩
    rw [List.append_assoc]
    exact hb.symm

/-- The verdict of every key is unchanged by the ancestor-prefix
closure. -/
theorem keyIsMatched_eq_noclosure (targets : List Target) (k : String) :
    keyIsMatched targets k = keyIsMatchedNC targets k := by
  simp only [keyIsMatched, keyIsMatchedNC]
  by_cases hsec : ((splitKeyColon k).1 == "section") = true
  · have hrt : (splitKeyColon k).1 = "section" := eq_of_beq hsec
    rw [hrt, knownTargetIds_section]
    simp only [beq_self_eq_true, Bool.true_and]
    rw [Bool.eq_iff_iff]
    constructor
    · intro h
      rcases Bool.or_eq_true_iff.mp h with hc | hs
      · rcases List.mem_append.mp (List.elem_iff.mp hc) with hb | hp
        · exact Bool.or_eq_true_iff.mpr (Or.inl (List.elem_iff.mpr hb))
        · obtain ⟨b, hbmem, rest, hbdata⟩ :=
            mem_closure_startswith targets _ hp
          refine Bool.or_eq_true_iff.mpr (Or.inr ?_)
          unfold sectionPrefixScan
          rw [List.any_eq_true]
          refine ⟨b, hbmem, ?_⟩
          rw [pyStartswith_extend b _ _ rest hbdata (Or.inr rfl)]
          rfl
      · unfold sectionPrefixScan at hs
        rw [List.any_eq_true] at hs
        obtain ⟨tid, htid, hP⟩ := hs
        rcases List.mem_append.mp htid with hb | hp
        · refine Bool.or_eq_true_iff.mpr (Or.inr ?_)
          unfold sectionPrefixScan
          rw [List.any_eq_true]
          exact ⟨tid, hb, hP⟩
        · obtain ⟨b, hbmem, rest, hbdata⟩ :=
            mem_closure_startswith targets _ hp
          have hdisj : pyStartswith tid ((splitKeyColon k).2 ++ ".") = true ∨
              tid = (splitKeyColon k).2 := by
            rcases Bool.or_eq_true_iff.mp hP with h1 | h1
            · exact Or.inl h1
            · exact Or.inr (eq_of_beq h1)
          refine Bool.or_eq_true_iff.mpr (Or.inr ?_)
          unfold sectionPrefixScan
          rw [List.any_eq_true]
          refine ⟨b, hbmem, ?_⟩
          rw [pyStartswith_extend b _ _ rest hbdata hdisj]
          rfl
    · intro h
      rcases Bool.or_eq_true_iff.mp h with hc | hs
      · refine Bool.or_eq_true_iff.mpr (Or.inl ?_)
        exact List.elem_iff.mpr (List.mem_append_left _ (List.elem_iff.mp hc))
      · unfold sectionPrefixScan at hs
        rw [List.any_eq_true] at hs
        obtain ⟨tid, htid, hP⟩ := hs
        refine Bool.or_eq_true_iff.mpr (Or.inr ?_)
        unfold sectionPrefixScan
        rw [List.any_eq_true]
        exact ⟨tid, List.mem_append_left _ htid, hP⟩
  · have hrt : ((splitKeyColon k).1 == "section") = false := by
      cases h : (splitKeyColon k).1 == "section" with
      | false => rfl
      | true => exact absurd h hsec
    rw [knownTargetIds_nonsection targets _ hrt, hrt]

/-- C10: the ancestor-prefix closure loop of `find_orphans` is
redundant — on every reference and target pool the closure-free variant
returns the very same matched/orphaned pair, because the existential
prefix scan already subsumes membership of every ancestor prefix. -/
theorem closure_loop_redundant (refs : List Reference) (targets : List Target) :
    find_orphans refs targets = find_orphans_noclosure refs targets := by
  unfold find_orphans find_orphans_noclosure
  simp only [keyIsMatched_eq_noclosure]
